import Mathlib

/-!
Verification of the Consultation Audit Engine (bdougall-code/Search).

Shallow embedding of the JavaScript sources into Lean 4.  Texts are
modelled as `List Char`; JavaScript numbers are modelled as `ℚ` (all the
arithmetic the scoring engine performs is exact on the values involved);
the regular expressions used by the code are translated into equivalent
deterministic character-list matchers (the patterns involved have no
essential backtracking, as noted at each definition).  Lower-casing is
modelled for ASCII, matching `Char.toLower`; every keyword the source
compares against is ASCII.
-/

namespace Audit

/-- Texts are lists of characters. -/
abbrev Text := List Char

/-! ### Basic text utilities shared by the embedded modules -/

/-- ASCII whitespace, as relevant to the `\s` class and `trim` on the
inputs the code handles. -/
def wsChar (c : Char) : Bool :=
  c = ' ' ∨ c = '\t' ∨ c = '\n' ∨ c = '\r'

/-- `String.prototype.trim`. -/
def trimText (l : Text) : Text :=
  ((l.dropWhile wsChar).reverse.dropWhile wsChar).reverse

/-- Split a text on newline characters (JS `split('\n')`). -/
def splitLines : Text → List Text
  | [] => [[]]
  | c :: rest =>
    let r := splitLines rest
    if c = '\n' then [] :: r
    else match r with
      | [] => [[c]]
      | ln :: lns => (c :: ln) :: lns

/-- Does `hay` start with `pre` (character-exact)? -/
def leadsWith : Text → Text → Bool
  | [], _ => true
  | _ :: _, [] => false
  | p :: ps, h :: hs => p = h && leadsWith ps hs

/-- `String.prototype.includes` : substring containment. -/
def containsSub (needle : Text) (hay : Text) : Bool :=
  match hay with
  | [] => leadsWith needle []
  | _ :: hs => leadsWith needle hay || containsSub needle hs

/-- ASCII lower-casing of a whole text (JS `toLowerCase` on the ASCII
texts the detectors compare against). -/
def lowerText (l : Text) : Text := l.map Char.toLower

/-! ### ScoringEngine — `src/assessmentCriteria.js` -/

/-- RAG rating record returned by `calculateRAGRating`. -/
structure RAGRating where
  rating : String
  score : ℚ
  description : String
  action : String
  deriving Repr, DecidableEq

/-- `calculateRAGRating(percentage)` : the fixed threshold ladder. -/
def calculateRAGRating (percentage : ℚ) : RAGRating :=
  if percentage ≥ 90 then
    { rating := "GREEN", score := percentage
      description := "Excellent. Consultation notes are of a high standard."
      action := "Clinician progresses to 3 monthly review" }
  else if percentage ≥ 70 then
    { rating := "YELLOW", score := percentage
      description := "Good. Minor errors/omissions are present but consultation notes are generally good and of an acceptable standard."
      action := "Clinician progresses to 3 monthly review" }
  else if percentage ≥ 50 then
    { rating := "AMBER", score := percentage
      description := "Below Standards. Consultations contain more errors/omissions and generally need improvement. Clinicians will be provided with feedback and expected to show improvement for the next review."
      action := "Clinician progresses to 1 month review. If no improvement in the next month (RAG yellow or above) face to face review with Partner." }
  else
    { rating := "RED", score := percentage
      description := "Unacceptable. Consultations are of a poor quality with poor/absent documentation"
      action := "Inform Management Partner / HR Lead. Face to face review with clinician. Consider additional training/support." }

/-- The four mutable counters of `calculateScore`. -/
structure RatingCounts where
  acceptableCount : ℕ
  concernCount : ℕ
  unacceptableCount : ℕ
  notRelevantCount : ℕ
  deriving Repr, DecidableEq

/-- One step of the `forEach` over `criteriaRatings`: the `if/else if`
chain incrementing the counters. -/
def countStep (k : RatingCounts) (rating : String) : RatingCounts :=
  if rating = "A" ∨ rating = "acceptable" then
    { k with acceptableCount := k.acceptableCount + 1 }
  else if rating = "C" ∨ rating = "concern" then
    { k with concernCount := k.concernCount + 1 }
  else if rating = "U" ∨ rating = "unacceptable" then
    { k with unacceptableCount := k.unacceptableCount + 1 }
  else if rating = "N" ∨ rating = "not-relevant" then
    { k with notRelevantCount := k.notRelevantCount + 1 }
  else k

/-- `Math.round(x * 100) / 100` : rounding to two decimal places.
`Math.round` rounds half-way cases toward `+∞`, i.e. `⌊x + 1/2⌋`. -/
def roundTwo (x : ℚ) : ℚ := (Int.floor (x * 100 + 1/2) : ℚ) / 100

/-- The object returned by `calculateScore`. -/
structure ScoreData where
  acceptable : ℕ
  concern : ℕ
  unacceptable : ℕ
  notRelevant : ℕ
  total : ℕ
  totalRelevant : ℕ
  score : ℚ
  percentage : ℚ
  ragRating : RAGRating
  deriving Repr, DecidableEq

/-- `calculateScore(criteriaRatings)` from `src/assessmentCriteria.js`.
Note the returned `percentage` field is rounded to two decimal places
while `ragRating` is computed from the unrounded percentage. -/
def calculateScore (criteriaRatings : List String) : ScoreData :=
  let k := criteriaRatings.foldl countStep ⟨0, 0, 0, 0⟩
  let totalRelevant := criteriaRatings.length - k.notRelevantCount
  let score : ℚ := (k.acceptableCount : ℚ) * 1 + (k.concernCount : ℚ) * (6/10)
  let percentage : ℚ := if totalRelevant > 0 then (score / totalRelevant) * 100 else 0
  { acceptable := k.acceptableCount
    concern := k.concernCount
    unacceptable := k.unacceptableCount
    notRelevant := k.notRelevantCount
    total := criteriaRatings.length
    totalRelevant := totalRelevant
    score := score
    percentage := roundTwo percentage
    ragRating := calculateRAGRating percentage }

/-- Predicate: the entry counts as Acceptable. -/
def isAcc (r : String) : Bool := r = "A" ∨ r = "acceptable"

/-- Predicate: the entry counts as Concern. -/
def isCon (r : String) : Bool := r = "C" ∨ r = "concern"

/-- Predicate: the entry counts as Unacceptable. -/
def isUnacc (r : String) : Bool := r = "U" ∨ r = "unacceptable"

/-- Predicate: the entry counts as NotRelevant. -/
def isNotRel (r : String) : Bool := r = "N" ∨ r = "not-relevant"

/-- Predicate: the entry is one of the four recognised ratings. -/
def isValidRating (r : String) : Bool := isAcc r ∨ isCon r ∨ isUnacc r ∨ isNotRel r

theorem countStep_acc (k : RatingCounts) (r : String) :
    (countStep k r).acceptableCount = k.acceptableCount + (if isAcc r then 1 else 0) := by
  unfold countStep isAcc
  by_cases h1 : r = "A" ∨ r = "acceptable" <;>
    by_cases h2 : r = "C" ∨ r = "concern" <;>
      by_cases h3 : r = "U" ∨ r = "unacceptable" <;>
        by_cases h4 : r = "N" ∨ r = "not-relevant" <;>
          simp [h1, h2, h3, h4]

theorem countStep_con (k : RatingCounts) (r : String) :
    (countStep k r).concernCount = k.concernCount + (if ¬ isAcc r ∧ isCon r then 1 else 0) := by
  unfold countStep isAcc isCon
  by_cases h1 : r = "A" ∨ r = "acceptable" <;>
    by_cases h2 : r = "C" ∨ r = "concern" <;>
      by_cases h3 : r = "U" ∨ r = "unacceptable" <;>
        by_cases h4 : r = "N" ∨ r = "not-relevant" <;>
          simp [h1, h2, h3, h4]

theorem countStep_unacc (k : RatingCounts) (r : String) :
    (countStep k r).unacceptableCount
      = k.unacceptableCount + (if ¬ isAcc r ∧ ¬ isCon r ∧ isUnacc r then 1 else 0) := by
  unfold countStep isAcc isCon isUnacc
  by_cases h1 : r = "A" ∨ r = "acceptable" <;>
    by_cases h2 : r = "C" ∨ r = "concern" <;>
      by_cases h3 : r = "U" ∨ r = "unacceptable" <;>
        by_cases h4 : r = "N" ∨ r = "not-relevant" <;>
          simp [h1, h2, h3, h4]

theorem countStep_notRel (k : RatingCounts) (r : String) :
    (countStep k r).notRelevantCount
      = k.notRelevantCount
        + (if ¬ isAcc r ∧ ¬ isCon r ∧ ¬ isUnacc r ∧ isNotRel r then 1 else 0) := by
  unfold countStep isAcc isCon isUnacc isNotRel
  by_cases h1 : r = "A" ∨ r = "acceptable" <;>
    by_cases h2 : r = "C" ∨ r = "concern" <;>
      by_cases h3 : r = "U" ∨ r = "unacceptable" <;>
        by_cases h4 : r = "N" ∨ r = "not-relevant" <;>
          simp [h1, h2, h3, h4]

/-- The four string-shapes recognised by the counter chain are mutually
exclusive, so every counter of the fold is a plain `countP`. -/
theorem foldl_counts (l : List String) (k : RatingCounts) :
    (l.foldl countStep k) =
      ⟨k.acceptableCount + l.countP isAcc,
       k.concernCount + l.countP isCon,
       k.unacceptableCount + l.countP isUnacc,
       k.notRelevantCount + l.countP isNotRel⟩ := by
  induction l generalizing k with
  | nil => simp
  | cons r rs ih =>
    rw [List.foldl_cons, ih]
    have hacc := countStep_acc k r
    have hcon := countStep_con k r
    have hun := countStep_unacc k r
    have hnr := countStep_notRel k r
    have hdisj : ((isAcc r ∧ isCon r) ∨ (isAcc r ∧ isUnacc r) ∨ (isAcc r ∧ isNotRel r)
        ∨ (isCon r ∧ isUnacc r) ∨ (isCon r ∧ isNotRel r) ∨ (isUnacc r ∧ isNotRel r)) → False := by
      unfold isAcc isCon isUnacc isNotRel
      rintro (⟨h1, h2⟩ | ⟨h1, h2⟩ | ⟨h1, h2⟩ | ⟨h1, h2⟩ | ⟨h1, h2⟩ | ⟨h1, h2⟩) <;>
        simp at h1 h2 <;>
        rcases h1 with h1 | h1 <;> rcases h2 with h2 | h2 <;> subst h1 <;> simp_all
    rw [List.countP_cons, List.countP_cons, List.countP_cons, List.countP_cons]
    simp only [RatingCounts.mk.injEq]
    constructor
    · rw [hacc]; omega
    constructor
    · rw [hcon]
      by_cases ha : isAcc r
      · have : ¬ isCon r := fun hc => hdisj (Or.inl ⟨ha, hc⟩)
        simp [ha, this]
      · simp [ha]; omega
    constructor
    · rw [hun]
      by_cases ha : isAcc r
      · have : ¬ isUnacc r := fun hc => hdisj (Or.inr (Or.inl ⟨ha, hc⟩))
        simp [ha, this]
      · by_cases hc : isCon r
        · have : ¬ isUnacc r := fun hu => hdisj (Or.inr <| Or.inr <| Or.inr <| Or.inl ⟨hc, hu⟩)
          simp [ha, hc, this]
        · simp [ha, hc]; omega
    · rw [hnr]
      by_cases ha : isAcc r
      · have : ¬ isNotRel r := fun hc => hdisj (Or.inr <| Or.inr <| Or.inl ⟨ha, hc⟩)
        simp [ha, this]
      · by_cases hc : isCon r
        · have : ¬ isNotRel r := fun hu =>
            hdisj (Or.inr <| Or.inr <| Or.inr <| Or.inr <| Or.inl ⟨hc, hu⟩)
          simp [ha, hc, this]
        · by_cases hu : isUnacc r
          · have : ¬ isNotRel r := fun hn =>
              hdisj (Or.inr <| Or.inr <| Or.inr <| Or.inr <| Or.inr ⟨hu, hn⟩)
            simp [ha, hc, hu, this]
          · simp [ha, hc, hu]; omega

/-- The concrete rating array of the spec scenario:
8 × Acceptable, 2 × Concern, 1 × Unacceptable, 1 × NotRelevant. -/
def scenarioRatings : List String :=
  ["acceptable", "acceptable", "acceptable", "acceptable", "acceptable", "acceptable",
   "acceptable", "acceptable", "concern", "concern", "unacceptable", "not-relevant"]

theorem calculateScore_counts (l : List String) :
    (calculateScore l).acceptable = l.countP isAcc
      ∧ (calculateScore l).concern = l.countP isCon
      ∧ (calculateScore l).unacceptable = l.countP isUnacc
      ∧ (calculateScore l).notRelevant = l.countP isNotRel
      ∧ (calculateScore l).totalRelevant = l.length - l.countP isNotRel
      ∧ (calculateScore l).score
          = (l.countP isAcc : ℚ) * 1 + (l.countP isCon : ℚ) * (6/10)
      ∧ (calculateScore l).percentage
          = roundTwo (if l.length - l.countP isNotRel > 0 then
              (((l.countP isAcc : ℚ) * 1 + (l.countP isCon : ℚ) * (6/10))
                 / ((l.length - l.countP isNotRel : ℕ) : ℚ)) * 100
            else 0)
      ∧ (calculateScore l).ragRating
          = calculateRAGRating (if l.length - l.countP isNotRel > 0 then
              (((l.countP isAcc : ℚ) * 1 + (l.countP isCon : ℚ) * (6/10))
                 / ((l.length - l.countP isNotRel : ℕ) : ℚ)) * 100
            else 0) := by
  simp only [calculateScore, foldl_counts, Nat.zero_add]
  refine ⟨?_, ?_, ?_, ?_, ?_, ?_, ?_, ?_⟩ <;> trivial

/-- **C1.** For every rating array, `calculateScore` returns
`percentage = ((1.0·count(Acceptable) + 0.6·count(Concern)) / totalRelevant) · 100`
rounded to two decimal places when `totalRelevant > 0` and `0` otherwise, with
`totalRelevant = length − count(NotRelevant)`; and on the concrete array of
8 Acceptable, 2 Concern, 1 Unacceptable, 1 NotRelevant it returns
`totalRelevant = 11`, `score = 9.2`, `percentage = 83.64` and RAG band YELLOW. -/
theorem calculateScore_percentage_formula :
    (∀ l : List String,
        (calculateScore l).totalRelevant = l.length - l.countP isNotRel
        ∧ (calculateScore l).percentage
            = (if (calculateScore l).totalRelevant > 0 then
                roundTwo ((((l.countP isAcc : ℚ) * 1 + (l.countP isCon : ℚ) * (6/10))
                  / (((calculateScore l).totalRelevant : ℕ) : ℚ)) * 100)
              else 0))
    ∧ (calculateScore scenarioRatings).totalRelevant = 11
    ∧ (calculateScore scenarioRatings).score = 92/10
    ∧ (calculateScore scenarioRatings).percentage = 8364/100
    ∧ (calculateScore scenarioRatings).ragRating.rating = "YELLOW" := by
  have hgen : ∀ l : List String,
      (calculateScore l).totalRelevant = l.length - l.countP isNotRel
      ∧ (calculateScore l).percentage
          = (if (calculateScore l).totalRelevant > 0 then
              roundTwo ((((l.countP isAcc : ℚ) * 1 + (l.countP isCon : ℚ) * (6/10))
                / (((calculateScore l).totalRelevant : ℕ) : ℚ)) * 100)
            else 0) := by
    intro l
    obtain ⟨-, -, -, -, htr, -, hp, -⟩ := calculateScore_counts l
    refine ⟨htr, ?_⟩
    rw [hp, htr]
    by_cases h : l.length - l.countP isNotRel > 0
    · simp [h]
    · simp only [h, if_false]
      norm_num [roundTwo]
  have hA : scenarioRatings.countP isAcc = 8 := by decide
  have hC : scenarioRatings.countP isCon = 2 := by decide
  have hN : scenarioRatings.countP isNotRel = 1 := by decide
  have hLen : scenarioRatings.length = 12 := by decide
  obtain ⟨-, -, -, -, htr, hsc, hp, hrag⟩ := calculateScore_counts scenarioRatings
  refine ⟨hgen, ?_, ?_, ?_, ?_⟩
  · rw [htr, hN, hLen]
  · rw [hsc, hA, hC]; norm_num
  · rw [hp, hA, hC, hN, hLen]
    norm_num [roundTwo, Int.floor_eq_iff]
  · rw [hrag, hA, hC, hN, hLen]
    have h90 : ¬ ((8 : ℚ) * 1 + 2 * (6/10)) / ((11 : ℕ) : ℚ) * 100 ≥ 90 := by norm_num
    have h70 : ((8 : ℚ) * 1 + 2 * (6/10)) / ((11 : ℕ) : ℚ) * 100 ≥ 70 := by norm_num
    simp only [show (12 : ℕ) - 1 = 11 from rfl]
    rw [calculateRAGRating]
    simp only [if_pos, if_neg, h90, h70, gt_iff_lt, Nat.lt_irrefl]
    norm_num

/-- **C2.** Two rating arrays with the same counts of Acceptable, Concern and
Unacceptable entries, differing only in how many NotRelevant entries they
contain, produce identical percentages (both come out of `calculateScore`
with the same rounded `percentage`). -/
theorem calculateScore_notRelevant_exclusion (l₁ l₂ : List String)
    (hv₁ : ∀ r ∈ l₁, isValidRating r) (hv₂ : ∀ r ∈ l₂, isValidRating r)
    (ha : l₁.countP isAcc = l₂.countP isAcc)
    (hc : l₁.countP isCon = l₂.countP isCon)
    (hu : l₁.countP isUnacc = l₂.countP isUnacc) :
    (calculateScore l₁).percentage = (calculateScore l₂).percentage := by
  have length_split : ∀ l : List String, (∀ r ∈ l, isValidRating r) →
      l.length = l.countP isAcc + l.countP isCon + l.countP isUnacc + l.countP isNotRel := by
    intro l hv
    induction l with
    | nil => simp
    | cons r rs ih =>
      have hr : isValidRating r := hv r (List.mem_cons_self r rs)
      have hrs := ih (fun x hx => hv x (List.mem_cons_of_mem r hx))
      have hr8 : r = "A" ∨ r = "acceptable" ∨ r = "C" ∨ r = "concern" ∨ r = "U"
          ∨ r = "unacceptable" ∨ r = "N" ∨ r = "not-relevant" := by
        unfold isValidRating isAcc isCon isUnacc isNotRel at hr
        simp only [Bool.or_eq_true, decide_eq_true_eq] at hr
        tauto
      rcases hr8 with h | h | h | h | h | h | h | h <;> subst h <;>
        simp [List.countP_cons, isAcc, isCon, isUnacc, isNotRel] <;> omega
  obtain ⟨-, -, -, -, htr₁, -, hp₁, -⟩ := calculateScore_counts l₁
  obtain ⟨-, -, -, -, -, -, hp₂, -⟩ := calculateScore_counts l₂
  have hlen₁ := length_split l₁ hv₁
  have hlen₂ := length_split l₂ hv₂
  have htr : l₁.length - l₁.countP isNotRel = l₂.length - l₂.countP isNotRel := by omega
  rw [hp₁, hp₂, htr, ha, hc]

/-- Witness for **C2**: `["A"]` and `["acceptable", "N"]` agree on the
non-NotRelevant counts and get the same percentage. -/
theorem calculateScore_notRelevant_exclusion_witness :
    (∀ r ∈ ["A"], isValidRating r) ∧ (∀ r ∈ ["acceptable", "N"], isValidRating r)
    ∧ (calculateScore ["A"]).percentage = (calculateScore ["acceptable", "N"]).percentage :=
  ⟨by decide, by decide,
   calculateScore_notRelevant_exclusion ["A"] ["acceptable", "N"]
     (by decide) (by decide) (by decide) (by decide) (by decide)⟩

/-! ### TextSignalDetector / RelevanceClassifier — `src/assessmentService.js` -/

/-- The apostrophe character (appears in one DNA keyword). -/
def apos : Char := Char.ofNat 39

/-- Keyword list of `checkForTestResults`. -/
def testKeywords : List Text :=
  ["blood test".toList, "blood result".toList, "lab result".toList, "laboratory".toList,
   "x-ray".toList, "xray".toList, "scan".toList, "mri".toList, "ct scan".toList,
   "ultrasound".toList, "radiology".toList, "pathology".toList, "biopsy".toList,
   "culture".toList, "test result".toList, "investigation result".toList,
   "ecg".toList, "ekg".toList]

/-- `checkForTestResults(consultationText)`. -/
def checkForTestResults (consultationText : Text) : Bool :=
  testKeywords.any (fun kw => containsSub kw (lowerText consultationText))

/-- Keyword list of `isTelephoneConsultation`. -/
def telephoneKeywords : List Text :=
  ["telephone".toList, "phone".toList, "tel:".toList, "telephon".toList,
   "phone call".toList, "spoke to patient".toList, "called patient".toList,
   "patient called".toList, "telephone consultation".toList, "phone consultation".toList]

/-- `isTelephoneConsultation(consultationText)`. -/
def isTelephoneConsultation (consultationText : Text) : Bool :=
  telephoneKeywords.any (fun kw => containsSub kw (lowerText consultationText))

/-- Keyword list of `isDNAorFailedEncounter`. -/
def dnaKeywords : List Text :=
  ["did not attend".toList, "dna".toList, "did not show".toList, "failed to attend".toList,
   "patient did not attend".toList, "no show".toList,
   "didn".toList ++ [apos] ++ "t attend".toList,
   "failed encounter".toList, "failed appointment".toList, "missed appointment".toList,
   "unable to contact".toList, "no answer".toList, "failed to answer".toList]

/-- `isDNAorFailedEncounter(consultationText)`. -/
def isDNAorFailedEncounter (consultationText : Text) : Bool :=
  dnaKeywords.any (fun kw => containsSub kw (lowerText consultationText))

/-- Keyword list of `hasPrescribing`. -/
def prescribingKeywords : List Text :=
  ["prescribed".toList, "prescription".toList, "rx:".toList, "medication:".toList,
   "drug:".toList, "treatment:".toList, "dispense".toList, "supply".toList,
   "mg".toList, "ml".toList, "tablets".toList, "capsules".toList, "dose".toList,
   "dosage".toList, "once daily".toList, "twice daily".toList, "bd".toList,
   "tds".toList, "qds".toList, "prn".toList]

/-- `hasPrescribing(consultationText)`. -/
def hasPrescribing (consultationText : Text) : Bool :=
  prescribingKeywords.any (fun kw => containsSub kw (lowerText consultationText))

/-- The `[A-Za-z]` character class. -/
def isAsciiLetter (c : Char) : Bool := ('A' ≤ c ∧ c ≤ 'Z') ∨ ('a' ≤ c ∧ c ≤ 'z')

/-- The `[0-9]` (`\d`) character class. -/
def isAsciiDigit (c : Char) : Bool := '0' ≤ c ∧ c ≤ '9'

/-- The `[A-Za-z0-9\s,.-]` character class of the Problem-field pattern. -/
def readCodeClass (c : Char) : Bool :=
  isAsciiLetter c || isAsciiDigit c || wsChar c || c = ',' || c = '.' || c = '-'

/-- Case-insensitive literal-text match at the head; `pat` is given in
lower case. -/
def ciLeadsWith : Text → Text → Bool
  | [], _ => true
  | _ :: _, [] => false
  | p :: ps, c :: cs => (c.toLower = p) && ciLeadsWith ps cs

/-- Try to match `Problem:?\s+([A-Za-z][A-Za-z0-9\s,.-]+)` (case-insensitive)
at the head of `l`, returning the capture group.  The pattern is
deterministic: after the literal, a `:` is consumed when present (if the
rest then fails, the colon-free alternative also fails because `\s+` cannot
match `:`), `\s+` and the trailing `+` are maximal runs over classes
disjoint from what follows them. -/
def matchProblemAt (l : Text) : Option Text :=
  if ciLeadsWith "problem".toList l then
    let r1 := l.drop 7
    let r2 := match r1 with
      | ':' :: r => r
      | r => r
    let ws := r2.takeWhile wsChar
    let r3 := r2.dropWhile wsChar
    if ws.isEmpty then none
    else match r3 with
      | [] => none
      | c :: r4 =>
        if isAsciiLetter c then
          let grp := r4.takeWhile readCodeClass
          if grp.isEmpty then none else some (c :: grp)
        else none
  else none

/-- Leftmost match of the Problem-field pattern (JS `String.match` without
the global flag returns the first match only). -/
def findProblemCapture : Text → Option Text
  | [] => none
  | c :: rest =>
    match matchProblemAt (c :: rest) with
    | some g => some g
    | none => findProblemCapture rest

/-- `checkForReadCode(consultationText)`: first match of the Problem-field
pattern whose capture has trimmed length `> 2`. -/
def checkForReadCode (consultationText : Text) : Bool :=
  match findProblemCapture consultationText with
  | some g => (trimText g).length > 2
  | none => false

/-- `extractEvidence(consultationText, criterion)`. -/
def extractEvidence (consultationText : Text) : Text :=
  if consultationText.length > 200 then consultationText.take 200 ++ "...".toList
  else consultationText

/-- Result of the deterministic part of `assessSingleCriterion`: either a
short-circuited assessment (no judgment call), or the criterion proceeds
to the external judgment capability. -/
inductive CriterionOutcome where
  | forced (rating : String) (explanation : String) (evidence : Text)
  | needsJudgment
  deriving Repr, DecidableEq

/-- Fixed explanation used for DNA/failed encounters. -/
def dnaExplanation : String :=
  "This is a Did Not Attend (DNA) or failed encounter. Most clinical criteria are not applicable, but safety netting should still be assessed."

/-- Fixed explanation used for the Problem-field short-circuit. -/
def readCodeExplanation : String :=
  "Problem is appropriately documented and coded. \"Problem:\" field is present with a diagnosis."

/-- Fixed explanation used for telephone consultations on criterion 5. -/
def telephoneExplanation : String :=
  "This is a telephone consultation where physical examination is not possible. This criterion is not relevant and is excluded from scoring."

/-- Fixed explanation used for criteria 7–9 without prescribing evidence. -/
def prescribingExplanation : String :=
  "No prescription was issued during this consultation. This prescribing criterion is not relevant and is excluded from scoring."

/-- Fixed explanation used for criterion 12 without test results. -/
def testResultsExplanation : String :=
  "No radiology or pathology results were present in this consultation that required action. This criterion is not relevant and is excluded from scoring."

/-- The deterministic short-circuit cascade of `assessSingleCriterion`
(`src/assessmentService.js`), by criterion id; `needsJudgment` marks the
fall-through to the external judgment call. -/
def assessSingleCriterion (text : Text) (id : ℕ) : CriterionOutcome :=
  if isDNAorFailedEncounter text ∧ id ≠ 11 then
    .forced "not-relevant" dnaExplanation (extractEvidence text)
  else if id = 2 ∧ checkForReadCode text then
    .forced "acceptable" readCodeExplanation (extractEvidence text)
  else if id = 5 ∧ isTelephoneConsultation text then
    .forced "not-relevant" telephoneExplanation (extractEvidence text)
  else if (id = 7 ∨ id = 8 ∨ id = 9) ∧ ¬ hasPrescribing text then
    .forced "not-relevant" prescribingExplanation (extractEvidence text)
  else if id = 12 ∧ ¬ checkForTestResults text then
    .forced "not-relevant" testResultsExplanation (extractEvidence text)
  else .needsJudgment

/-- **C3 (amended).** The per-criterion assessment is short-circuited
deterministically before any judgment call: on a failed-encounter text every
criterion except 11 is forced not-relevant with the fixed explanation while
criterion 11 proceeds to judgment; otherwise criterion 5 is forced
not-relevant on telephone texts, criteria 7, 8 and 9 are forced not-relevant
without prescribing evidence, criterion 12 is forced not-relevant without
test-result evidence, and criterion 2 is force-rated acceptable — bypassing
judgment — when the Problem-field pattern matches with a captured diagnosis
of trimmed length greater than two. -/
theorem assessSingleCriterion_short_circuit (text : Text) :
    (isDNAorFailedEncounter text = true →
        (∀ id : ℕ, id ≠ 11 →
          assessSingleCriterion text id
            = .forced "not-relevant" dnaExplanation (extractEvidence text))
        ∧ assessSingleCriterion text 11 = .needsJudgment)
    ∧ (isDNAorFailedEncounter text = false →
        (isTelephoneConsultation text = true →
          assessSingleCriterion text 5
            = .forced "not-relevant" telephoneExplanation (extractEvidence text))
        ∧ (hasPrescribing text = false →
          ∀ id : ℕ, (id = 7 ∨ id = 8 ∨ id = 9) →
            assessSingleCriterion text id
              = .forced "not-relevant" prescribingExplanation (extractEvidence text))
        ∧ (checkForTestResults text = false →
          assessSingleCriterion text 12
            = .forced "not-relevant" testResultsExplanation (extractEvidence text))
        ∧ (checkForReadCode text = true →
          assessSingleCriterion text 2
            = .forced "acceptable" readCodeExplanation (extractEvidence text))) := by
  constructor
  · intro hdna
    refine ⟨fun id hid => ?_, ?_⟩
    · unfold assessSingleCriterion
      rw [if_pos ⟨hdna, hid⟩]
    · unfold assessSingleCriterion
      simp [hdna]
  · intro hdna
    refine ⟨fun htel => ?_, fun hpres id hid => ?_, fun htest => ?_, fun hread => ?_⟩
    · unfold assessSingleCriterion
      simp [hdna, htel]
    · unfold assessSingleCriterion
      rcases hid with h | h | h <;> subst h <;> simp [hdna, hpres]
    · unfold assessSingleCriterion
      simp [hdna, htest]
    · unfold assessSingleCriterion
      simp [hdna, hread]

/-- Witness for **C3**: on the text `did not attend` (a DNA indicator)
criterion 3 is forced not-relevant and criterion 11 still needs judgment;
on the text `telephone call from patient` criterion 5 is forced
not-relevant. -/
theorem assessSingleCriterion_short_circuit_witness :
    isDNAorFailedEncounter "did not attend".toList = true
    ∧ assessSingleCriterion "did not attend".toList 3
        = .forced "not-relevant" dnaExplanation (extractEvidence "did not attend".toList)
    ∧ assessSingleCriterion "did not attend".toList 11 = .needsJudgment
    ∧ isDNAorFailedEncounter "telephone call".toList = false
    ∧ isTelephoneConsultation "telephone call".toList = true
    ∧ assessSingleCriterion "telephone call".toList 5
        = .forced "not-relevant" telephoneExplanation (extractEvidence "telephone call".toList) :=
  ⟨by decide,
   ((assessSingleCriterion_short_circuit "did not attend".toList).1 (by decide)).1 3 (by decide),
   ((assessSingleCriterion_short_circuit "did not attend".toList).1 (by decide)).2,
   by decide, by decide,
   ((assessSingleCriterion_short_circuit "telephone call".toList).2 (by decide)).1 (by decide)⟩

/-- **C3 counterexample.** The original claim says criterion 2 is force-rated
acceptable whenever a `Problem:` field with non-empty following text is
present; on `Problem: ab` the following text `ab` is non-empty, yet the code
requires a trimmed capture longer than two characters, so criterion 2 falls
through to judgment instead of being force-rated acceptable. -/
theorem assessSingleCriterion_problem_counterexample :
    findProblemCapture "Problem: ab".toList = some "ab".toList
    ∧ "ab".toList ≠ []
    ∧ checkForReadCode "Problem: ab".toList = false
    ∧ assessSingleCriterion "Problem: ab".toList 2 = .needsJudgment := by
  refine ⟨by decide, by decide, by decide, by decide⟩

/-! ### CriterionJudge rating extraction — `extractRating` in
`src/assessmentService.js` -/

/-- The `[ACUN]` class under the `i` flag. -/
def ratingTagClass (c : Char) : Bool :=
  c = 'A' ∨ c = 'C' ∨ c = 'U' ∨ c = 'N' ∨ c = 'a' ∨ c = 'c' ∨ c = 'u' ∨ c = 'n'

/-- Try to match `RATING:\s*([ACUN])` (case-insensitive) at the head of
`l`.  `\s*` is a maximal run: whitespace is disjoint from the tag class,
so greedy matching with backtracking coincides with the maximal-run
reading. -/
def matchRatingAt (l : Text) : Option Char :=
  if ciLeadsWith "rating:".toList l then
    match (l.drop 7).dropWhile wsChar with
    | [] => none
    | c :: _ => if ratingTagClass c then some c else none
  else none

/-- Leftmost match of the rating-tag pattern. -/
def findRatingCapture : Text → Option Char
  | [] => none
  | c :: rest =>
    match matchRatingAt (c :: rest) with
    | some t => some t
    | none => findRatingCapture rest

/-- `extractRating(aiResponse)`: map the first captured tag (upper-cased)
to a rating string, defaulting to `concern`. -/
def extractRating (aiResponse : Text) : String :=
  match findRatingCapture aiResponse with
  | some t =>
    let r := t.toUpper
    if r = 'A' then "acceptable"
    else if r = 'C' then "concern"
    else if r = 'U' then "unacceptable"
    else if r = 'N' then "not-relevant"
    else "concern"
  | none => "concern"

/-- **C7.** Rating extraction is total and never fails: every response maps
to one of the four rating strings; `A`/`C`/`U`/`N` tags (either case)
right after a `RATING:` stem map to acceptable / concern / unacceptable /
not-relevant, whatever follows; and whenever no tag can be extracted the
result defaults to `concern`. -/
theorem extractRating_total_with_default :
    (∀ s : Text, extractRating s = "acceptable" ∨ extractRating s = "concern"
        ∨ extractRating s = "unacceptable" ∨ extractRating s = "not-relevant")
    ∧ (∀ s : Text, findRatingCapture s = none → extractRating s = "concern")
    ∧ (∀ q : Text,
        extractRating ("RATING: ".toList ++ 'A' :: q) = "acceptable"
        ∧ extractRating ("RATING: ".toList ++ 'a' :: q) = "acceptable"
        ∧ extractRating ("RATING: ".toList ++ 'C' :: q) = "concern"
        ∧ extractRating ("RATING: ".toList ++ 'c' :: q) = "concern"
        ∧ extractRating ("RATING: ".toList ++ 'U' :: q) = "unacceptable"
        ∧ extractRating ("RATING: ".toList ++ 'u' :: q) = "unacceptable"
        ∧ extractRating ("RATING: ".toList ++ 'N' :: q) = "not-relevant"
        ∧ extractRating ("RATING: ".toList ++ 'n' :: q) = "not-relevant") := by
  refine ⟨fun s => ?_, fun s h => ?_, fun q => ?_⟩
  · unfold extractRating
    cases findRatingCapture s with
    | none => simp
    | some t =>
      by_cases hA : t.toUpper = 'A' <;> by_cases hC : t.toUpper = 'C' <;>
        by_cases hU : t.toUpper = 'U' <;> by_cases hN : t.toUpper = 'N' <;>
          simp [hA, hC, hU, hN]
  · unfold extractRating
    rw [h]
  · exact ⟨rfl, rfl, rfl, rfl, rfl, rfl, rfl, rfl⟩

/-- Witness for **C7**: on a response without any extractable tag the rating
defaults to `concern`. -/
theorem extractRating_total_with_default_witness :
    findRatingCapture "No structured answer".toList = none
    ∧ extractRating "No structured answer".toList = "concern" :=
  ⟨by decide,
   extractRating_total_with_default.2.1 "No structured answer".toList (by decide)⟩

/-! ### ConsultationParser — `parseConsultations` in `src/auditService.js` -/

/-- A parsed consultation record. -/
structure Consultation where
  date : Text
  text : Text
  fullText : Text
  deriving Repr, DecidableEq

/-- Take the maximal run of characters satisfying `p` together with the
remainder. -/
def spanP (p : Char → Bool) (l : Text) : Text × Text := (l.takeWhile p, l.dropWhile p)

/-- The `[0-9a-f]` class under the `i` flag. -/
def isHexCI (c : Char) : Bool :=
  isAsciiDigit c || ('a' ≤ c ∧ c ≤ 'f') || ('A' ≤ c ∧ c ≤ 'F')

/-- Consume exactly `n` characters of class `p`. -/
def consumeClass (p : Char → Bool) : ℕ → Text → Option Text
  | 0, l => some l
  | _ + 1, [] => none
  | n + 1, c :: r => if p c then consumeClass p n r else none

/-- Consume one expected character. -/
def consumeChar (ch : Char) : Text → Option Text
  | c :: r => if c = ch then some r else none
  | [] => none

/-- The header check: `line.startsWith('Date') && line.includes('Consultation Text')`. -/
def isHeaderLine (l : Text) : Bool :=
  leadsWith "Date".toList l && containsSub "Consultation Text".toList l

/-- Match `\d{1,2}-[A-Za-z]{3}-\d{4}` at the head, returning the remainder.
`\d{1,2}` before a literal `-` coincides with "maximal digit run of length
1 or 2 followed by `-`" (a third digit would make every alternative fail),
and `[A-Za-z]{3}`/`\d{4}` are fixed-width. -/
def consumeBareDate (l : Text) : Option Text :=
  let (d1, r1) := spanP isAsciiDigit l
  if d1.length = 1 ∨ d1.length = 2 then
    match consumeChar '-' r1 with
    | none => none
    | some r2 =>
      match consumeClass isAsciiLetter 3 r2 with
      | none => none
      | some r3 =>
        match consumeChar '-' r3 with
        | none => none
        | some r4 =>
          let (y, r5) := spanP isAsciiDigit r4
          if y.length = 4 then some r5 else none
  else none

/-- Match the standard record-header pattern
`^(\d{1,2}-[A-Za-z]{3}-\d{4}\s+\d{1,2}:\d{2})\s+(.+)` on a trimmed line,
returning the two capture groups.  `\s+` runs are maximal (whitespace is
disjoint from every class following it), `\d{2}` minutes must be followed
by whitespace (a third digit makes every alternative fail), and on a
trimmed line `\s+(.+)` holds exactly when dropping the maximal whitespace
run leaves a non-empty remainder. -/
def matchStdDateLine (l : Text) : Option (Text × Text) :=
  match consumeBareDate l with
  | none => none
  | some r5 =>
    let (ws1, r6) := spanP wsChar r5
    if ws1.isEmpty then none
    else
      let (h, r7) := spanP isAsciiDigit r6
      if h.length = 1 ∨ h.length = 2 then
        match consumeChar ':' r7 with
        | none => none
        | some r8 =>
          let (m, r9) := spanP isAsciiDigit r8
          if m.length = 2 then
            let (ws2, r10) := spanP wsChar r9
            if ws2.isEmpty ∨ r10.isEmpty then none
            else some (l.take (l.length - r9.length), r10)
          else none
      else none

/-- Match the UUID-prefixed record-header pattern
`^[0-9a-f]{8}-[0-9a-f]{4}-[0-9a-f]{4}-[0-9a-f]{4}-[0-9a-f]{12}\s+(\d{1,2}-[A-Za-z]{3}-\d{4})\s+(.+)`
(case-insensitive) on a trimmed line, returning the bare date and the
trailing text. -/
def matchUUIDDateLine (l : Text) : Option (Text × Text) :=
  let step := fun (n : ℕ) (r : Option Text) =>
    match r with
    | none => none
    | some r' =>
      match consumeClass isHexCI n r' with
      | none => none
      | some r'' => consumeChar '-' r''
  match step 4 (step 4 (step 4 (step 8 (some l)))) with
  | none => none
  | some r1 =>
    match consumeClass isHexCI 12 r1 with
    | none => none
    | some r2 =>
      let (ws1, r3) := spanP wsChar r2
      if ws1.isEmpty then none
      else
        match consumeBareDate r3 with
        | none => none
        | some r4 =>
          let (ws2, r5) := spanP wsChar r4
          if ws2.isEmpty ∨ r5.isEmpty then none
          else some (r3.take (r3.length - r4.length), r5)

/-- Tagged-variant classification of one (trimmed) line, following the order
of checks in `parseConsultations`. -/
inductive LineKind where
  | header
  | newUUID (date : Text) (text : Text)
  | newStd (date : Text) (text : Text)
  | blank
  | other
  deriving Repr, DecidableEq

/-- Classify a trimmed line. -/
def classifyLine (l : Text) : LineKind :=
  if isHeaderLine l then .header
  else match matchUUIDDateLine l with
    | some (d, t) => .newUUID d t
    | none =>
      match matchStdDateLine l with
      | some (d, t) => .newStd d t
      | none => if l.isEmpty then .blank else .other

/-- Does the line kind open a new record? -/
def isNewKind : LineKind → Bool
  | .newUUID _ _ => true
  | .newStd _ _ => true
  | _ => false

/-- Append a continuation line to the open record (newline-joined, both in
`text` and `fullText`). -/
def appendLine (r : Consultation) (line : Text) : Consultation :=
  { r with text := r.text ++ '\n' :: line, fullText := r.fullText ++ '\n' :: line }

/-- The line-by-line loop of `parseConsultations`, with the single piece of
mutable state (`currentConsultation`) made explicit; the code's if/else
cascade over one line is `classifyLine`. -/
def parseGo : Option Consultation → List Text → List Consultation
  | cur, [] => cur.toList
  | cur, raw :: ls =>
    match classifyLine (trimText raw) with
    | .header => parseGo cur ls
    | .newUUID d t => cur.toList ++ parseGo (some ⟨d ++ " 00:00".toList, t, trimText raw⟩) ls
    | .newStd d t => cur.toList ++ parseGo (some ⟨d, t, trimText raw⟩) ls
    | .blank => parseGo cur ls
    | .other =>
      match cur with
      | some r => parseGo (some (appendLine r (trimText raw))) ls
      | none => parseGo none ls

/-- `parseConsultations(consultationData)`. -/
def parseConsultations (consultationData : Text) : List Consultation :=
  parseGo none (splitLines (trimText consultationData))

/-- A raw line does not open a new record. -/
def notNewRaw (raw : Text) : Bool := ¬ isNewKind (classifyLine (trimText raw))

/-- Continuation lines reaching the currently open record: the trimmed
non-empty non-header lines up to the next record opener. -/
def contLines (ls : List Text) : List Text :=
  ((ls.takeWhile notNewRaw).map trimText).filter
    (fun l => ¬ l.isEmpty ∧ ¬ isHeaderLine l)

/-- Specification-level parser, written from the (amended) claim: a record
per opener line, holding the newline-join of its trimmed opener line and
the trimmed, non-empty, non-header lines up to the next opener; everything
before the first opener is dropped. -/
def parseSpecGo : List Text → List Consultation
  | [] => []
  | raw :: ls =>
    match classifyLine (trimText raw) with
    | .newUUID d t =>
      (contLines ls).foldl appendLine ⟨d ++ " 00:00".toList, t, trimText raw⟩ :: parseSpecGo ls
    | .newStd d t =>
      (contLines ls).foldl appendLine ⟨d, t, trimText raw⟩ :: parseSpecGo ls
    | _ => parseSpecGo ls

/-- Specification-level `parseConsultations`. -/
def parseConsultationsSpec (consultationData : Text) : List Consultation :=
  parseSpecGo (splitLines (trimText consultationData))

theorem classifyLine_header_inv {l : Text} (h : classifyLine l = .header) :
    isHeaderLine l = true := by
  unfold classifyLine at h
  by_cases hh : isHeaderLine l
  · exact hh
  · simp only [hh, if_false, Bool.false_eq_true] at h
    rcases hm : matchUUIDDateLine l with - | ⟨d, t⟩ <;> simp only [hm] at h
    · rcases hs : matchStdDateLine l with - | ⟨d, t⟩ <;> simp only [hs] at h
      · by_cases he : l.isEmpty <;> simp [he] at h
      · simp at h
    · simp at h

theorem classifyLine_blank_inv {l : Text} (h : classifyLine l = .blank) :
    l.isEmpty = true ∧ isHeaderLine l = false := by
  unfold classifyLine at h
  by_cases hh : isHeaderLine l
  · simp [hh] at h
  · simp only [hh, if_false, Bool.false_eq_true] at h
    rcases hm : matchUUIDDateLine l with - | ⟨d, t⟩ <;> simp only [hm] at h
    · rcases hs : matchStdDateLine l with - | ⟨d, t⟩ <;> simp only [hs] at h
      · by_cases he : l.isEmpty <;> simp [he] at h ⊢
        simp [hh]
      · simp at h
    · simp at h

theorem classifyLine_other_inv {l : Text} (h : classifyLine l = .other) :
    l.isEmpty = false ∧ isHeaderLine l = false := by
  unfold classifyLine at h
  by_cases hh : isHeaderLine l
  · simp [hh] at h
  · simp only [hh, if_false, Bool.false_eq_true] at h
    rcases hm : matchUUIDDateLine l with - | ⟨d, t⟩ <;> simp only [hm] at h
    · rcases hs : matchStdDateLine l with - | ⟨d, t⟩ <;> simp only [hs] at h
      · by_cases he : l.isEmpty <;> simp [he] at h ⊢
        simp [hh]
      · simp at h
    · simp at h

theorem contLines_cons_skip {raw : Text} (ls : List Text)
    (hnew : notNewRaw raw = true)
    (hdrop : (trimText raw).isEmpty = true ∨ isHeaderLine (trimText raw) = true) :
    contLines (raw :: ls) = contLines ls := by
  unfold contLines
  rw [List.takeWhile_cons, if_pos hnew, List.map_cons, List.filter_cons_of_neg]
  rcases hdrop with h | h <;> simp_all

theorem contLines_cons_keep {raw : Text} (ls : List Text)
    (hnew : notNewRaw raw = true)
    (he : (trimText raw).isEmpty = false) (hh : isHeaderLine (trimText raw) = false) :
    contLines (raw :: ls) = trimText raw :: contLines ls := by
  unfold contLines
  rw [List.takeWhile_cons, if_pos hnew, List.map_cons, List.filter_cons_of_pos]
  simp_all

theorem contLines_cons_new {raw : Text} (ls : List Text)
    (hnew : notNewRaw raw = false) :
    contLines (raw :: ls) = [] := by
  unfold contLines
  rw [List.takeWhile_cons, if_neg (by simp [hnew])]
  rfl

theorem parseGo_some (cur : Consultation) (ls : List Text) :
    parseGo (some cur) ls = (contLines ls).foldl appendLine cur :: parseSpecGo ls := by
  induction ls generalizing cur with
  | nil => simp [parseGo, contLines, parseSpecGo]
  | cons raw rest ih =>
    cases hk : classifyLine (trimText raw) with
    | header =>
      have hh := classifyLine_header_inv hk
      have hnew : notNewRaw raw = true := by simp [notNewRaw, hk, isNewKind]
      rw [parseGo, hk, ih, contLines_cons_skip rest hnew (Or.inr hh), parseSpecGo, hk]
    | newUUID d t =>
      have hnew : notNewRaw raw = false := by simp [notNewRaw, hk, isNewKind]
      rw [parseGo, hk, ih, contLines_cons_new rest hnew, parseSpecGo, hk]
      simp [ih]
    | newStd d t =>
      have hnew : notNewRaw raw = false := by simp [notNewRaw, hk, isNewKind]
      rw [parseGo, hk, ih, contLines_cons_new rest hnew, parseSpecGo, hk]
      simp [ih]
    | blank =>
      have hb := classifyLine_blank_inv hk
      have hnew : notNewRaw raw = true := by simp [notNewRaw, hk, isNewKind]
      rw [parseGo, hk, ih, contLines_cons_skip rest hnew (Or.inl hb.1), parseSpecGo, hk]
    | other =>
      have ho := classifyLine_other_inv hk
      have hnew : notNewRaw raw = true := by simp [notNewRaw, hk, isNewKind]
      rw [parseGo, hk, ih, contLines_cons_keep rest hnew ho.1 ho.2, parseSpecGo, hk]
      simp [ih, List.foldl_cons]

theorem parseGo_none (ls : List Text) : parseGo none ls = parseSpecGo ls := by
  induction ls with
  | nil => rfl
  | cons raw rest ih =>
    cases hk : classifyLine (trimText raw) with
    | header => rw [parseGo, hk, ih, parseSpecGo, hk]
    | newUUID d t =>
      rw [parseGo, hk]
      dsimp only
      rw [parseGo_some, parseSpecGo, hk]
      rfl
    | newStd d t =>
      rw [parseGo, hk]
      dsimp only
      rw [parseGo_some, parseSpecGo, hk]
      rfl
    | blank => rw [parseGo, hk, ih, parseSpecGo, hk]
    | other => rw [parseGo, hk, ih, parseSpecGo, hk]

/-- If no line opens a record, the specification parser yields nothing. -/
theorem parseSpecGo_no_opener (ls : List Text)
    (h : ∀ raw ∈ ls, notNewRaw raw = true) : parseSpecGo ls = [] := by
  induction ls with
  | nil => rfl
  | cons raw rest ih =>
    have hr := h raw (List.mem_cons_self raw rest)
    have hrest := ih (fun x hx => h x (List.mem_cons_of_mem raw hx))
    rw [parseSpecGo]
    simp only [notNewRaw] at hr
    cases hk : classifyLine (trimText raw) <;> simp [hk, isNewKind] at hr ⊢ <;> exact hrest

/-- **C4 (amended).** `parseConsultations` behaves exactly like the
line-classifier description, with lines whitespace-trimmed before
classification and with header lines (`Date … Consultation Text`) skipped
everywhere: a record opens at each trimmed line matching the standard
date-time pattern or the UUID-prefixed bare-date pattern (the latter given
time `00:00`); every other non-empty non-header trimmed line is appended
newline-joined to the open record; the last record is flushed; records come
out in input order; inputs without an opener line give the empty list; and
continuation lines before the first opener are dropped. -/
theorem parseConsultations_refines_spec :
    (∀ data : Text, parseConsultations data = parseConsultationsSpec data)
    ∧ (∀ data : Text,
        (∀ raw ∈ splitLines (trimText data), notNewRaw raw = true) →
        parseConsultations data = []) := by
  refine ⟨fun data => parseGo_none _, fun data h => ?_⟩
  unfold parseConsultations
  rw [parseGo_none]
  exact parseSpecGo_no_opener _ h

/-- Witness for **C4**: a three-record blob with interleaved continuation
lines parses to three records in order whose `fullText` is the newline-join
of each opener line with its continuation lines, and an opener-free blob
parses to the empty list. -/
theorem parseConsultations_refines_spec_witness :
    parseConsultations
        ("1-Jan-2024 10:00 first\nline a\n2-Feb-2024 11:30 second\nline b\n3-Mar-2024 12:45 third").toList
      = parseConsultationsSpec
        ("1-Jan-2024 10:00 first\nline a\n2-Feb-2024 11:30 second\nline b\n3-Mar-2024 12:45 third").toList
    ∧ (∀ raw ∈ splitLines (trimText "no openers\nat all".toList), notNewRaw raw = true)
    ∧ parseConsultations "no openers\nat all".toList = [] :=
  ⟨(parseConsultations_refines_spec.1 _),
   by decide,
   parseConsultations_refines_spec.2 _ (by decide)⟩

/-- **C4 counterexample.** The original claim asserts every non-empty
non-opener line is appended to the open record and that each record's text
is the verbatim join of its input lines.  The code (a) skips a mid-stream
header line (`Date … Consultation Text …`) instead of appending it, and
(b) trims every line before joining, so a continuation line with leading
whitespace is not stored verbatim. -/
theorem parseConsultations_header_counterexample :
    (parseConsultations ("1-Jan-2024 10:00 abc\nDate of the Consultation Text follows").toList).map
        Consultation.fullText
      = ["1-Jan-2024 10:00 abc".toList]
    ∧ ("Date of the Consultation Text follows").toList ≠ []
    ∧ (parseConsultations ("1-Jan-2024 10:00 abc\n   indented continuation").toList).map
        Consultation.fullText
      = [("1-Jan-2024 10:00 abc\nindented continuation").toList]
    ∧ ("1-Jan-2024 10:00 abc\nindented continuation").toList
        ≠ ("1-Jan-2024 10:00 abc\n   indented continuation").toList := by
  refine ⟨by decide, by decide, by decide, by decide⟩

/-! ### AuditService review orchestration — `src/auditService.js` -/

/-- `this.batchSize` of `AuditService`. -/
def batchSize : ℕ := 10

/-- The batch slicing of `conductFullReview`:
`consultations.slice(batchStart, min(batchStart + batchSize, length))`
for `batchStart = 0, batchSize, 2·batchSize, …`.  Structural recursion on
a fuel argument (one unit per loop iteration; `l.length` units suffice
because every iteration drops at least one element). -/
def batchSlicesGo (fuel : ℕ) (l : List α) : List (List α) :=
  match fuel, l with
  | _, [] => []
  | 0, _ => []
  | f + 1, l@(_ :: _) => l.take batchSize :: batchSlicesGo f (l.drop batchSize)

/-- Batch slicing with enough fuel for the whole list. -/
def batchSlices (l : List α) : List (List α) := batchSlicesGo l.length l

/-- Observable effects of a review run: one judgment pipeline
(`assessConsultation`) per record, and the single persistence attempt
(`saveAssessmentsToDatabase`). -/
inductive Effect where
  | judgment (c : Consultation)
  | persist (n : ℕ)
  deriving Repr, DecidableEq

/-- Is the effect a judgment call? -/
def isJudgmentEffect : Effect → Bool
  | .judgment _ => true
  | _ => false

/-- The caller-visible shape of a review result that the claims are about:
the reported total and the assessed records in report order. -/
structure ReviewRun where
  totalConsultations : ℕ
  assessed : List Consultation
  deriving Repr, DecidableEq

/-- `conductFullReview(consultationData)`: parse, validate `≥ 10`, then
assess every parsed record batch by batch (no record ceiling exists in the
code), then persist.  The error branch throws before any judgment or
persistence effect. -/
def conductFullReview (consultationData : Text) : Except String ReviewRun × List Effect :=
  let consultations := parseConsultations consultationData
  if consultations.length < 10 then
    (.error ("Full Review requires at least 10 consultations. Found: "
        ++ Nat.repr consultations.length), [])
  else
    let assessed := (batchSlices consultations).flatten
    (.ok ⟨consultations.length, assessed⟩,
     assessed.map .judgment ++ [.persist assessed.length])

/-- `conductRapidReview(consultationData)`: parse, validate `= 2`, then
assess both records and persist. -/
def conductRapidReview (consultationData : Text) : Except String ReviewRun × List Effect :=
  let consultations := parseConsultations consultationData
  if consultations.length ≠ 2 then
    (.error ("Rapid Review requires exactly 2 consultations. Found: "
        ++ Nat.repr consultations.length), [])
  else
    (.ok ⟨consultations.length, consultations⟩,
     consultations.map .judgment ++ [.persist consultations.length])

/-- **C8.** A Full Review on fewer than 10 parsed records fails validation
immediately with an error naming the found count and produces no judgment
or persistence effect; a Rapid Review fails the same way on any record
count other than exactly 2. -/
theorem review_validation_fail_fast :
    (∀ data : Text, (parseConsultations data).length < 10 →
        conductFullReview data
          = (.error ("Full Review requires at least 10 consultations. Found: "
              ++ Nat.repr (parseConsultations data).length), []))
    ∧ (∀ data : Text, (parseConsultations data).length ≠ 2 →
        conductRapidReview data
          = (.error ("Rapid Review requires exactly 2 consultations. Found: "
              ++ Nat.repr (parseConsultations data).length), [])) := by
  constructor
  · intro data h
    unfold conductFullReview
    rw [if_pos h]
  · intro data h
    unfold conductRapidReview
    rw [if_pos h]

/-- Witness for **C8**: the empty input parses to 0 records; both review
types reject it with the count in the message and an empty effect list. -/
theorem review_validation_fail_fast_witness :
    (parseConsultations "".toList).length < 10
    ∧ conductFullReview "".toList
        = (.error "Full Review requires at least 10 consultations. Found: 0", [])
    ∧ (parseConsultations "".toList).length ≠ 2
    ∧ conductRapidReview "".toList
        = (.error "Rapid Review requires exactly 2 consultations. Found: 0", []) :=
  ⟨by decide,
   by rw [review_validation_fail_fast.1 "".toList (by decide)]; rfl,
   by decide,
   by rw [review_validation_fail_fast.2 "".toList (by decide)]; rfl⟩

/-- A 21-record input blob: 21 standard date-stamped lines. -/
def input21 : Text := (List.replicate 21 "1-Jan-2024 10:00 note\n".toList).flatten

/-- **C5.** (The record ceiling is absent.)  On an input parsing to 21
records, `conductFullReview` succeeds, reports all 21 records, issues 21
judgment-pipeline calls (one per record, none dropped) and returns all 21
assessed records: the code has no 20-record ceiling and no excluded-count
report, although `PRIVACY_ENHANCEMENTS.md` documents
`MAX_CONSULTATIONS = 20` with `slice(0, MAX_CONSULTATIONS)` in
`src/auditService.js`. -/
theorem conductFullReview_no_record_ceiling :
    (parseConsultations input21).length = 21
    ∧ (conductFullReview input21).1.toOption = some ⟨21, parseConsultations input21⟩
    ∧ (conductFullReview input21).2.countP isJudgmentEffect = 21 := by
  refine ⟨by decide, by decide, by decide⟩

/-! ### HTTP review gate — `src/server.js` with `src/piiValidator.js` -/

/-- `NameReplacement{original, replacement}` (from the name anonymizer). -/
structure NameReplacement where
  original : Text
  replacement : Text
  deriving Repr, DecidableEq

/-- A PII validation issue. -/
structure PIIIssue where
  type : String
  severity : String
  count : ℕ
  message : String
  replacements : List NameReplacement
  deriving Repr, DecidableEq

/-- `hasHighSeverityIssues(issues)` from `src/piiValidator.js`. -/
def hasHighSeverityIssues (issues : List PIIIssue) : Bool :=
  issues.any (fun issue => issue.severity = "HIGH")

/-- The three outcomes of the rapid-review / full-review POST handlers that
the claims distinguish. -/
inductive AuditResponse (α : Type) where
  | missingData
  | piiBlocked (error : String) (piiIssues : List PIIIssue)
  | success (result : α)
  deriving Repr, DecidableEq

/-- The shared body of the `/api/audit/rapid-review` and
`/api/audit/full-review` handlers: require a body, run `validateForPII`,
return 400 with the full issue list when a HIGH-severity issue is present,
otherwise run the review (`conduct` stands for
`conductRapidReview`/`conductFullReview`; it is applied to the submitted
data unchanged — the handlers apply no anonymization). -/
def handleAuditRequest (validate : Text → List PIIIssue) (conduct : Text → α)
    (body : Option Text) : AuditResponse α :=
  match body with
  | none => .missingData
  | some consultationData =>
    let piiIssues := validate consultationData
    if piiIssues.length > 0 then
      if hasHighSeverityIssues piiIssues then
        .piiBlocked
          "Patient identifiable information detected. Please anonymize the data before submitting."
          piiIssues
      else .success (conduct consultationData)
    else .success (conduct consultationData)

/-- **C6.** If the deterministic PII scan of the submitted text yields any
HIGH-severity issue, the request is rejected with the full structured issue
list and the review pipeline is never invoked (the response is the same for
every `conduct`, so zero judgment calls are issued and no anonymization or
other processing touches the submission); if the scan yields only
MEDIUM-severity issues (no HIGH), the submission proceeds to the review. -/
theorem handleAuditRequest_pii_gate {α : Type}
    (validate : Text → List PIIIssue) (data : Text) :
    (hasHighSeverityIssues (validate data) = true →
      ∀ conduct : Text → α,
        handleAuditRequest validate conduct (some data)
          = .piiBlocked
              "Patient identifiable information detected. Please anonymize the data before submitting."
              (validate data))
    ∧ (hasHighSeverityIssues (validate data) = false →
      ∀ conduct : Text → α,
        handleAuditRequest validate conduct (some data) = .success (conduct data)) := by
  constructor
  · intro hhigh conduct
    have hlen : (validate data).length > 0 := by
      unfold hasHighSeverityIssues at hhigh
      rcases List.any_eq_true.mp hhigh with ⟨issue, hmem, -⟩
      exact List.length_pos.mpr (List.ne_nil_of_mem hmem)
    unfold handleAuditRequest
    dsimp only
    rw [if_pos hlen, if_pos hhigh]
  · intro hhigh conduct
    unfold handleAuditRequest
    dsimp only
    by_cases hlen : (validate data).length > 0
    · rw [if_pos hlen, if_neg (by simp [hhigh])]
    · rw [if_neg hlen]

/-- Witness for **C6**: a scan returning one HIGH issue blocks the request
for any review function, and a MEDIUM-only scan lets it through. -/
theorem handleAuditRequest_pii_gate_witness :
    (hasHighSeverityIssues [⟨"NHS_NUMBER", "HIGH", 1, "1 potential NHS number(s) detected (10-digit numbers)", []⟩] = true)
    ∧ handleAuditRequest (fun _ => [⟨"NHS_NUMBER", "HIGH", 1, "1 potential NHS number(s) detected (10-digit numbers)", []⟩])
        (fun _ => (0 : ℕ)) (some "data".toList)
        = .piiBlocked
            "Patient identifiable information detected. Please anonymize the data before submitting."
            [⟨"NHS_NUMBER", "HIGH", 1, "1 potential NHS number(s) detected (10-digit numbers)", []⟩]
    ∧ (hasHighSeverityIssues [⟨"POSTCODE", "MEDIUM", 1, "1 potential postcode(s) detected", []⟩] = false)
    ∧ handleAuditRequest (fun _ => [⟨"POSTCODE", "MEDIUM", 1, "1 potential postcode(s) detected", []⟩])
        (fun _ => (7 : ℕ)) (some "data".toList)
        = .success 7 :=
  ⟨by decide,
   (handleAuditRequest_pii_gate _ "data".toList).1 (by decide) (fun _ => 0),
   by decide,
   (handleAuditRequest_pii_gate _ "data".toList).2 (by decide) (fun _ => 7)⟩

/-! ### PIIGuard name detection and anonymization — the enhanced
`piiValidator` module (`src/unnamed/part_001`) -/

/-- A name object returned by the detection capability. -/
structure DetectedName where
  name : Text
  deriving Repr, DecidableEq

/-- Outcome of the external name-detection call in `detectPersonNames`:
the client may be unavailable (`getOpenAIClient()` returns null), the call
itself may throw, or it returns some response content. -/
inductive NameDetectOutcome where
  | unavailable
  | callError
  | responded (content : Text)
  deriving Repr, DecidableEq

/-- `detectPersonNames(text)`: error handling of the external call.
`parseNames` stands for the response-processing step (markdown-fence
extraction, `JSON.parse`, `Array.isArray`): it returns `none` when the
response does not parse as a JSON array (in the code `JSON.parse` throws
into the `catch`, or `Array.isArray` fails), and the detected list
otherwise.  Every failure path returns the empty list. -/
def detectPersonNames (parseNames : Text → Option (List DetectedName)) :
    NameDetectOutcome → List DetectedName
  | .unavailable => []
  | .callError => []
  | .responded content =>
    match parseNames content with
    | none => []
    | some names => names

/-- The `\w` class `[A-Za-z0-9_]` (word characters for `\b`). -/
def isWordChar (c : Char) : Bool := isAsciiLetter c || isAsciiDigit c || c = '_'

/-- Split on single whitespace characters, keeping empty pieces (the
shape of a JS `split` before filtering). -/
def wsSplitRaw : Text → List Text
  | [] => [[]]
  | c :: rest =>
    let r := wsSplitRaw rest
    if wsChar c then [] :: r
    else match r with
      | [] => [[c]]
      | t :: ts => (c :: t) :: ts

/-- `name.split(/\s+/).filter(part => part.length > 0)`: the maximal
non-whitespace runs. -/
def splitWsTokens (l : Text) : List Text := (wsSplitRaw l).filter (fun t => ¬ t.isEmpty)

/-- `nameToInitials(name)`: first character of each token, upper-cased,
joined. -/
def nameToInitials (name : Text) : Text :=
  (splitWsTokens name).map (fun part => part.headI.toUpper)

/-- Case-insensitive literal match of `name` against a prefix of the text
(the escaped name inside the anonymization regex). -/
def ciStarts : Text → Text → Bool
  | [], _ => true
  | _ :: _, [] => false
  | n :: ns, c :: cs => (n.toLower = c.toLower) && ciStarts ns cs

/-- The `\b` before the name: the word-ness of the preceding character (or
start of text) must differ from that of the name's first character.  (The
matched text character agrees with the name's character up to ASCII case,
hence in word-ness.) -/
def bdBefore (prev : Option Char) (f : Char) : Bool :=
  match prev with
  | none => isWordChar f
  | some p => isWordChar p != isWordChar f

/-- The `\b` after the name, against the remainder of the text. -/
def bdAfter (lastc : Char) (rest : Text) : Bool :=
  match rest with
  | [] => isWordChar lastc
  | c :: _ => isWordChar lastc != isWordChar c

/-- One attempt of the global word-bounded case-insensitive regex at the
current position, with `prev` the character preceding the position. -/
def matchWordCIAt (name : Text) (prev : Option Char) (l : Text) : Bool :=
  match name with
  | [] => false
  | f :: _ => bdBefore prev f && ciStarts name l && bdAfter (name.getLastD f) (l.drop name.length)

/-- `regex.test(text)` for the word-bounded case-insensitive name regex. -/
def hasWordCI (name : Text) : Option Char → Text → Bool
  | _, [] => false
  | prev, c :: rest => matchWordCIAt name prev (c :: rest) || hasWordCI name (some c) rest

/-- `text.replace(regex, initials)` with the global flag: scan left to
right, replace each (non-overlapping) match and resume after it.  Fuel
recursion (one unit per consumed character; `l.length` units suffice). -/
def replaceWordCIGo (name initials : Text) : ℕ → Option Char → Text → Text
  | _, _, [] => []
  | 0, _, l => l
  | f + 1, prev, c :: rest =>
    if matchWordCIAt name prev (c :: rest) then
      initials ++ replaceWordCIGo name initials f (some (name.getLastD c)) (rest.drop (name.length - 1))
    else c :: replaceWordCIGo name initials f (some c) rest

/-- The whole-text replacement. -/
def replaceWordCI (name initials : Text) (l : Text) : Text :=
  replaceWordCIGo name initials l.length none l

/-- Stable insertion keeping name lengths descending (ties keep input
order, as the JS stable sort with comparator `b.name.length - a.name.length`). -/
def insertByLen (x : DetectedName) : List DetectedName → List DetectedName
  | [] => [x]
  | y :: ys => if x.name.length > y.name.length then x :: y :: ys else y :: insertByLen x ys

/-- `[...names].sort((a, b) => b.name.length - a.name.length)`. -/
def sortByLenDesc (names : List DetectedName) : List DetectedName :=
  names.foldr insertByLen []

/-- The loop body of `anonymizeNames`: test, then replace all occurrences
and record one replacement entry. -/
def anonymizeStep (acc : Text × List NameReplacement) (nameObj : DetectedName) :
    Text × List NameReplacement :=
  let originalName := nameObj.name
  let initials := nameToInitials originalName
  if hasWordCI originalName none acc.1 then
    (replaceWordCI originalName initials acc.1, acc.2 ++ [⟨originalName, initials⟩])
  else acc

/-- `anonymizeNames(text, names)`. -/
def anonymizeNames (text : Text) (names : List DetectedName) : Text × List NameReplacement :=
  if names.isEmpty then (text, [])
  else (sortByLenDesc names).foldl anonymizeStep (text, [])

/-- `validateForPII(text)` of the enhanced module: NHS numbers and dates of
birth are HIGH, postcodes, phone numbers and e-mail addresses MEDIUM.  The
five regex match counts are parameters of the embedding; the issue list is
built exactly as in the code. -/
def validateForPII (nhsCount dobCount postcodeCount phoneCount emailCount : Text → ℕ)
    (text : Text) : List PIIIssue :=
  (if nhsCount text > 0 then
    [⟨"NHS_NUMBER", "HIGH", nhsCount text,
      Nat.repr (nhsCount text) ++ " potential NHS number(s) detected (10-digit numbers)", []⟩]
   else [])
  ++ (if dobCount text > 0 then
    [⟨"DATE_OF_BIRTH", "HIGH", dobCount text,
      Nat.repr (dobCount text) ++ " date of birth reference(s) detected", []⟩]
   else [])
  ++ (if postcodeCount text > 0 then
    [⟨"POSTCODE", "MEDIUM", postcodeCount text,
      Nat.repr (postcodeCount text) ++ " potential postcode(s) detected", []⟩]
   else [])
  ++ (if phoneCount text > 0 then
    [⟨"PHONE_NUMBER", "MEDIUM", phoneCount text,
      Nat.repr (phoneCount text) ++ " potential phone number(s) detected", []⟩]
   else [])
  ++ (if emailCount text > 0 then
    [⟨"EMAIL", "MEDIUM", emailCount text,
      Nat.repr (emailCount text) ++ " email address(es) detected", []⟩]
   else [])

/-- The object returned by `validateAndAnonymize`. -/
structure ValidateAnonymizeResult where
  issues : List PIIIssue
  anonymizedText : Text
  nameReplacements : List NameReplacement
  hasNames : Bool
  deriving Repr, DecidableEq

/-- `validateAndAnonymize(text)`: regex validation, AI name detection,
anonymization, and the conditional `PERSON_NAMES` issue. -/
def validateAndAnonymize (nhsCount dobCount postcodeCount phoneCount emailCount : Text → ℕ)
    (parseNames : Text → Option (List DetectedName)) (outcome : NameDetectOutcome)
    (text : Text) : ValidateAnonymizeResult :=
  let issues := validateForPII nhsCount dobCount postcodeCount phoneCount emailCount text
  let detectedNames := detectPersonNames parseNames outcome
  let res := anonymizeNames text detectedNames
  let issues' :=
    if res.2.length > 0 then
      issues ++ [⟨"PERSON_NAMES", "HIGH", res.2.length,
        Nat.repr res.2.length ++ " person name(s) detected and replaced with initials", res.2⟩]
    else issues
  ⟨issues', res.1, res.2, res.2.length > 0⟩

/-- Every issue the regex validator can produce has one of the five scan
types; in particular it never produces `PERSON_NAMES`. -/
theorem validateForPII_types (nhs dob post phone email : Text → ℕ) (text : Text) :
    ∀ issue ∈ validateForPII nhs dob post phone email text,
      issue.type = "NHS_NUMBER" ∨ issue.type = "DATE_OF_BIRTH" ∨ issue.type = "POSTCODE"
        ∨ issue.type = "PHONE_NUMBER" ∨ issue.type = "EMAIL" := by
  intro issue hmem
  unfold validateForPII at hmem
  simp only [List.mem_append] at hmem
  rcases hmem with ((((h | h) | h) | h) | h) <;>
    · split at h <;> simp_all

/-- **C10.** A failure of the external name-detection capability (client
unavailable, call error, or unparsable/non-array response) never blocks:
`detectPersonNames` returns the empty list, and `validateAndAnonymize`
then returns the original text unchanged, an empty replacement list, no
`PERSON_NAMES` issue (only the regex-scan issues), and `hasNames = false`,
so the submission proceeds with no anonymization applied. -/
theorem detectPersonNames_failure_is_safe
    (nhs dob post phone email : Text → ℕ)
    (parseNames : Text → Option (List DetectedName))
    (text : Text) (outcome : NameDetectOutcome)
    (hfail : outcome = .unavailable ∨ outcome = .callError
      ∨ ∃ s, outcome = .responded s ∧ parseNames s = none) :
    detectPersonNames parseNames outcome = []
    ∧ validateAndAnonymize nhs dob post phone email parseNames outcome text
        = ⟨validateForPII nhs dob post phone email text, text, [], false⟩
    ∧ ∀ issue ∈ (validateAndAnonymize nhs dob post phone email parseNames outcome text).issues,
        issue.type ≠ "PERSON_NAMES" := by
  have hdet : detectPersonNames parseNames outcome = [] := by
    rcases hfail with h | h | ⟨s, hs, hp⟩ <;> subst_eqs <;> simp [detectPersonNames, *]
  have hres : validateAndAnonymize nhs dob post phone email parseNames outcome text
      = ⟨validateForPII nhs dob post phone email text, text, [], false⟩ := by
    unfold validateAndAnonymize
    rw [hdet]
    simp [anonymizeNames]
  refine ⟨hdet, hres, ?_⟩
  rw [hres]
  intro issue hmem
  rcases validateForPII_types nhs dob post phone email text issue hmem with
    h | h | h | h | h <;> simp [h]

/-- Witness for **C10**: with a failing call (`callError`) and any parse
function, detection is empty and the result keeps the text unchanged with
no `PERSON_NAMES` issue. -/
theorem detectPersonNames_failure_is_safe_witness :
    detectPersonNames (fun _ => none) .callError = []
    ∧ validateAndAnonymize (fun _ => 0) (fun _ => 0) (fun _ => 0) (fun _ => 0) (fun _ => 0)
        (fun _ => none) .callError "Patient seen today".toList
        = ⟨validateForPII (fun _ => 0) (fun _ => 0) (fun _ => 0) (fun _ => 0) (fun _ => 0)
            "Patient seen today".toList,
           "Patient seen today".toList, [], false⟩ :=
  ⟨(detectPersonNames_failure_is_safe (fun _ => 0) (fun _ => 0) (fun _ => 0) (fun _ => 0)
      (fun _ => 0) (fun _ => none) "Patient seen today".toList .callError
      (Or.inr (Or.inl rfl))).1,
   (detectPersonNames_failure_is_safe (fun _ => 0) (fun _ => 0) (fun _ => 0) (fun _ => 0)
      (fun _ => 0) (fun _ => none) "Patient seen today".toList .callError
      (Or.inr (Or.inl rfl))).2.1⟩

/-! #### The John-Smith scenario: supporting lemmas -/

/-- The scenario name, in constructor form. -/
def jsChars : Text := ['J', 'o', 'h', 'n', ' ', 'S', 'm', 'i', 't', 'h']

/-- Its initials. -/
def jsIni : Text := ['J', 'S']

/-- Predicate: the text begins (at offset `i` into the name) with the rest
of the name, case-insensitively, followed by a valid right word boundary.
A match of the whole name pending its first `i` characters. -/
def tailStarts (i : ℕ) (l : Text) : Bool :=
  ciStarts (jsChars.drop i) l && bdAfter 'h' (l.drop (10 - i))

theorem jsChars_toList : ("John Smith".toList : Text) = jsChars := rfl

theorem jsIni_initials : nameToInitials jsChars = jsIni := by decide

theorem hasWordCI_cons (n : Text) (prev : Option Char) (c : Char) (rest : Text) :
    hasWordCI n prev (c :: rest)
      = (matchWordCIAt n prev (c :: rest) || hasWordCI n (some c) rest) := rfl

theorem matchAt_prev_congr (n : Text) {p q : Char} (h : isWordChar p = isWordChar q)
    (l : Text) : matchWordCIAt n (some p) l = matchWordCIAt n (some q) l := by
  cases n with
  | nil => rfl
  | cons f ns => simp [matchWordCIAt, bdBefore, h]

theorem hasWordCI_prev_congr (n : Text) {p q : Char} (h : isWordChar p = isWordChar q) :
    ∀ l : Text, hasWordCI n (some p) l = hasWordCI n (some q) l
  | [] => rfl
  | c :: rest => by
    rw [hasWordCI_cons, hasWordCI_cons, matchAt_prev_congr n h]

theorem matchAt_js_cons (prev : Option Char) (c : Char) (r : Text) :
    matchWordCIAt jsChars prev (c :: r)
      = ((bdBefore prev 'J'
          && (decide ('J'.toLower = c.toLower) && ciStarts (jsChars.drop 1) r))
         && bdAfter 'h' (r.drop 9)) := rfl

theorem tailStarts_one (l : Text) :
    tailStarts 1 l = (ciStarts (jsChars.drop 1) l && bdAfter 'h' (l.drop 9)) := rfl

theorem js_getLastD (c : Char) : jsChars.getLastD c = 'h' := rfl

theorem js_drop_cons (i : ℕ) (h1 : 1 ≤ i) (h2 : i ≤ 9) :
    jsChars.drop i = (jsChars.drop i).headI :: jsChars.drop (i + 1) := by
  interval_cases i <;> rfl

theorem js_tail_not_j (i : ℕ) (h1 : 1 ≤ i) (h2 : i ≤ 9) :
    ¬ ((jsChars.drop i).headI.toLower = 'J'.toLower) := by
  interval_cases i <;> decide

theorem tailStarts_cons (i : ℕ) (h1 : 1 ≤ i) (h2 : i ≤ 9) (c : Char) (r : Text) :
    tailStarts i (c :: r)
      = ((decide ((jsChars.drop i).headI.toLower = c.toLower)
            && ciStarts (jsChars.drop (i + 1)) r)
         && bdAfter 'h' (r.drop (9 - i))) := by
  unfold tailStarts
  rw [js_drop_cons i h1 h2]
  have h10 : 10 - i = (9 - i) + 1 := by omega
  rw [h10, List.drop_succ_cons]
  rfl

theorem bdAfter_js_ini (z : Text) : bdAfter 'h' (jsIni ++ z) = false := rfl

theorem bdAfter_transfer (f : ℕ) (c : Char) (rest : Text) (hlen : rest.length ≤ f)
    (h : bdAfter 'h' (replaceWordCIGo jsChars jsIni f (some c) rest) = true) :
    bdAfter 'h' rest = true := by
  cases rest with
  | nil => decide
  | cons d r =>
    obtain ⟨f', rfl⟩ : ∃ f', f = f' + 1 := by
      cases f with
      | zero => simp at hlen
      | succ f' => exact ⟨f', rfl⟩
    by_cases hm : matchWordCIAt jsChars (some c) (d :: r)
    · simp only [replaceWordCIGo, if_pos hm] at h
      rw [bdAfter_js_ini] at h
      cases h
    · simp only [replaceWordCIGo, if_neg hm] at h
      simpa [bdAfter] using h

theorem leadsWith_append (x y : Text) : leadsWith x (x ++ y) = true := by
  induction x with
  | nil => rfl
  | cons a xs ih => simp [leadsWith, ih]

theorem containsSub_self_append (x y : Text) : containsSub x (x ++ y) = true := by
  cases x with
  | nil => cases y <;> simp [containsSub, leadsWith]
  | cons a xs =>
    show (leadsWith (a :: xs) ((a :: xs) ++ y) || containsSub (a :: xs) (xs ++ y)) = true
    rw [leadsWith_append]
    simp

theorem containsSub_cons_of (x : Text) (c : Char) (r : Text)
    (h : containsSub x r = true) : containsSub x (c :: r) = true := by
  simp [containsSub, h]

theorem replaceGo_contains (name ini : Text) :
    ∀ (f : ℕ) (prev : Option Char) (l : Text), l.length ≤ f →
      hasWordCI name prev l = true →
      containsSub ini (replaceWordCIGo name ini f prev l) = true := by
  intro f
  induction f with
  | zero =>
    intro prev l hlen h
    have : l = [] := by cases l <;> simp_all
    subst this
    simp [hasWordCI] at h
  | succ f ih =>
    intro prev l hlen h
    cases l with
    | nil => simp [hasWordCI] at h
    | cons c rest =>
      simp only [replaceWordCIGo]
      by_cases hm : matchWordCIAt name prev (c :: rest)
      · rw [if_pos hm]
        exact containsSub_self_append ini _
      · rw [if_neg hm]
        rw [hasWordCI_cons] at h
        simp only [hm, Bool.false_or] at h
        have hlen' : rest.length ≤ f := by simp at hlen; omega
        exact containsSub_cons_of _ _ _ (ih (some c) rest hlen' h)

theorem jsIni_append (z : Text) : (jsIni ++ z : Text) = 'J' :: 'S' :: z := rfl

theorem matchAt_js_head_ini (prev : Option Char) (z : Text) :
    matchWordCIAt jsChars prev ('J' :: 'S' :: z) = false := by
  rw [matchAt_js_cons]
  have h : ciStarts (jsChars.drop 1) ('S' :: z) = false := by
    show (decide ('o'.toLower = 'S'.toLower) && ciStarts (jsChars.drop 2) z) = false
    simp [(by decide : ¬ ('o'.toLower = 'S'.toLower))]
  simp only [h, Bool.and_false, Bool.false_and]

theorem matchAt_js_after_J (z : Text) :
    matchWordCIAt jsChars (some 'J') ('S' :: z) = false := by
  rw [matchAt_js_cons]
  simp [(by decide : ¬ ('J'.toLower = 'S'.toLower))]

/-- Replacing every word-bounded case-insensitive occurrence of
`John Smith` by `JS` leaves no such occurrence behind, and the output never
gains a partially-started occurrence the input did not have.  Induction on
the fuel (one unit per consumed character). -/
theorem js_scan_invariant : ∀ f : ℕ, ∀ l : Text, l.length ≤ f →
    (∀ prev, hasWordCI jsChars prev (replaceWordCIGo jsChars jsIni f prev l) = false)
    ∧ (∀ i, 1 ≤ i → i ≤ 9 → ∀ prev,
        tailStarts i (replaceWordCIGo jsChars jsIni f prev l) = true
          → tailStarts i l = true) := by
  intro f
  induction f with
  | zero =>
    intro l hlen
    have hl : l = [] := by cases l <;> simp_all
    subst hl
    constructor
    · intro prev
      rfl
    · intro i h1 h2 prev ht
      unfold tailStarts at ht
      rw [js_drop_cons i h1 h2] at ht
      simp [ciStarts] at ht
  | succ f ih =>
    intro l hlen
    cases l with
    | nil =>
      constructor
      · intro prev
        rfl
      · intro i h1 h2 prev ht
        unfold tailStarts at ht
        rw [js_drop_cons i h1 h2] at ht
        simp [ciStarts] at ht
    | cons c rest =>
      have hlen' : rest.length ≤ f := by simp at hlen; omega
      constructor
      · intro prev
        by_cases hm : matchWordCIAt jsChars prev (c :: rest)
        · simp only [replaceWordCIGo, if_pos hm, js_getLastD]
          rw [jsIni_append, hasWordCI_cons, hasWordCI_cons,
            matchAt_js_head_ini, matchAt_js_after_J]
          simp only [Bool.false_or]
          rw [hasWordCI_prev_congr jsChars (by decide : isWordChar 'S' = isWordChar 'h')]
          exact (ih _ (le_trans (by simp) hlen')).1 (some 'h')
        · simp only [replaceWordCIGo, if_neg hm]
          rw [hasWordCI_cons]
          have h2 : hasWordCI jsChars (some c)
              (replaceWordCIGo jsChars jsIni f (some c) rest) = false :=
            (ih rest hlen').1 (some c)
          have h1 : matchWordCIAt jsChars prev
              (c :: replaceWordCIGo jsChars jsIni f (some c) rest) = false := by
            by_contra hcon
            rw [Bool.not_eq_false, matchAt_js_cons] at hcon
            simp only [Bool.and_eq_true, decide_eq_true_eq] at hcon
            obtain ⟨⟨hbd, hcij, hci1⟩, haft⟩ := hcon
            have hts1 : tailStarts 1 (replaceWordCIGo jsChars jsIni f (some c) rest) = true := by
              rw [tailStarts_one, hci1, haft]
              rfl
            have hts1r := (ih rest hlen').2 1 (le_refl 1) (by omega) (some c) hts1
            rw [tailStarts_one] at hts1r
            simp only [Bool.and_eq_true] at hts1r
            have : matchWordCIAt jsChars prev (c :: rest) = true := by
              rw [matchAt_js_cons]
              simp only [Bool.and_eq_true, decide_eq_true_eq]
              exact ⟨⟨hbd, hcij, hts1r.1⟩, hts1r.2⟩
            simp [this] at hm
          rw [h1, h2]
          rfl
      · intro i hi1 hi9 prev ht
        by_cases hm : matchWordCIAt jsChars prev (c :: rest)
        · exfalso
          simp only [replaceWordCIGo, if_pos hm, js_getLastD] at ht
          rw [jsIni_append, tailStarts_cons i hi1 hi9] at ht
          simp only [Bool.and_eq_true, decide_eq_true_eq] at ht
          exact js_tail_not_j i hi1 hi9 ht.1.1
        · simp only [replaceWordCIGo, if_neg hm] at ht
          rw [tailStarts_cons i hi1 hi9] at ht
          simp only [Bool.and_eq_true, decide_eq_true_eq] at ht
          obtain ⟨⟨hhead, hciS⟩, haftS⟩ := ht
          rw [tailStarts_cons i hi1 hi9]
          simp only [Bool.and_eq_true, decide_eq_true_eq]
          rcases Nat.lt_or_ge i 9 with hlt | hge
          · have h9 : 9 - i = 10 - (i + 1) := by omega
            have hts : tailStarts (i + 1)
                (replaceWordCIGo jsChars jsIni f (some c) rest) = true := by
              unfold tailStarts
              rw [← h9, hciS, haftS]
              rfl
            have htsr := (ih rest hlen').2 (i + 1) (by omega) (by omega) (some c) hts
            unfold tailStarts at htsr
            rw [← h9] at htsr
            simp only [Bool.and_eq_true] at htsr
            exact ⟨⟨hhead, htsr.1⟩, htsr.2⟩
          · have h9 : i = 9 := by omega
            subst h9
            refine ⟨⟨hhead, ?_⟩, ?_⟩
            · rfl
            · have haftS' : bdAfter 'h'
                  (replaceWordCIGo jsChars jsIni f (some c) rest) = true := by
                simpa using haftS
              simpa using bdAfter_transfer f c rest hlen' haftS'

/-- After the global replacement, no word-bounded case-insensitive
occurrence of `John Smith` remains in the text. -/
theorem js_replace_no_occurrence (text : Text) :
    hasWordCI jsChars none (replaceWordCI jsChars jsIni text) = false :=
  (js_scan_invariant text.length text (le_refl _)).1 none

theorem insertByLen_perm (x : DetectedName) (l : List DetectedName) :
    (insertByLen x l).Perm (x :: l) := by
  induction l with
  | nil => rfl
  | cons y ys ih =>
    unfold insertByLen
    by_cases h : x.name.length > y.name.length
    · rw [if_pos h]
    · rw [if_neg h]
      exact (ih.cons y).trans (List.Perm.swap x y ys)

theorem sortByLenDesc_perm (names : List DetectedName) :
    (sortByLenDesc names).Perm names := by
  induction names with
  | nil => rfl
  | cons x xs ih =>
    exact (insertByLen_perm x (sortByLenDesc xs)).trans (ih.cons x)

theorem insertByLen_pairwise (x : DetectedName) (l : List DetectedName)
    (h : l.Pairwise (fun a b => b.name.length ≤ a.name.length)) :
    (insertByLen x l).Pairwise (fun a b => b.name.length ≤ a.name.length) := by
  induction l with
  | nil => simp [insertByLen]
  | cons y ys ih =>
    rw [List.pairwise_cons] at h
    obtain ⟨hy, hys⟩ := h
    unfold insertByLen
    by_cases hc : x.name.length > y.name.length
    · rw [if_pos hc]
      rw [List.pairwise_cons]
      refine ⟨?_, List.pairwise_cons.mpr ⟨hy, hys⟩⟩
      intro z hz
      rcases List.mem_cons.mp hz with rfl | hz'
      · omega
      · have := hy z hz'
        omega
    · rw [if_neg hc]
      rw [List.pairwise_cons]
      refine ⟨?_, ih hys⟩
      intro z hz
      have hz' := (insertByLen_perm x ys).mem_iff.mp hz
      rcases List.mem_cons.mp hz' with rfl | hz''
      · omega
      · exact hy z hz''

theorem sortByLenDesc_pairwise (names : List DetectedName) :
    (sortByLenDesc names).Pairwise (fun a b => b.name.length ≤ a.name.length) := by
  induction names with
  | nil => exact List.Pairwise.nil
  | cons x xs ih => exact insertByLen_pairwise x (sortByLenDesc xs) ih

theorem anonymize_foldl_reps (sorted : List DetectedName) :
    ∀ acc : Text × List NameReplacement,
      ∀ rep ∈ (sorted.foldl anonymizeStep acc).2,
        rep ∈ acc.2 ∨ (rep.replacement = nameToInitials rep.original
          ∧ rep.original ∈ sorted.map DetectedName.name) := by
  induction sorted with
  | nil => intro acc rep h; exact Or.inl h
  | cons x xs ih =>
    intro acc rep h
    rw [List.foldl_cons] at h
    rcases ih (anonymizeStep acc x) rep h with hmem | ⟨hrep, hin⟩
    · unfold anonymizeStep at hmem
      by_cases hx : hasWordCI x.name none acc.1
      · rw [if_pos hx] at hmem
        simp only [List.mem_append, List.mem_singleton] at hmem
        rcases hmem with hmem | rfl
        · exact Or.inl hmem
        · exact Or.inr ⟨rfl, by simp⟩
      · rw [if_neg hx] at hmem
        exact Or.inl hmem
    · exact Or.inr ⟨hrep, by simp [hin]⟩

/-- **C9.** Anonymization converts each detected name to the uppercase
initials of its whitespace-separated tokens and records a replacement whose
`replacement` field is exactly those initials; names are processed longest
first (the processing order `sortByLenDesc names` — the order
`anonymizeNames` folds over by definition — is a permutation of the
detected names with non-increasing name length); and for any text with a
case-insensitive whole-word occurrence of `John Smith` and detected name
`John Smith`, the result records exactly one replacement
`{original: John Smith, replacement: JS}`, contains `JS`, and contains no
case-insensitive whole-word occurrence of `John Smith`. -/
theorem anonymizeNames_contract :
    (∀ (text : Text) (names : List DetectedName),
        ∀ rep ∈ (anonymizeNames text names).2,
          rep.replacement = nameToInitials rep.original
            ∧ rep.original ∈ names.map DetectedName.name)
    ∧ (∀ names : List DetectedName,
        (sortByLenDesc names).Pairwise (fun a b => b.name.length ≤ a.name.length)
        ∧ (sortByLenDesc names).Perm names)
    ∧ (∀ text : Text, hasWordCI "John Smith".toList none text = true →
        (anonymizeNames text [⟨"John Smith".toList⟩]).2
            = [⟨"John Smith".toList, "JS".toList⟩]
        ∧ containsSub "JS".toList (anonymizeNames text [⟨"John Smith".toList⟩]).1 = true
        ∧ hasWordCI "John Smith".toList none
            (anonymizeNames text [⟨"John Smith".toList⟩]).1 = false) := by
  refine ⟨?_, ?_, ?_⟩
  · intro text names rep hrep
    unfold anonymizeNames at hrep
    by_cases hemp : names.isEmpty
    · rw [if_pos hemp] at hrep
      simp at hrep
    · rw [if_neg hemp] at hrep
      rcases anonymize_foldl_reps (sortByLenDesc names) (text, []) rep hrep with hmem | ⟨h1, h2⟩
      · simp at hmem
      · refine ⟨h1, ?_⟩
        exact ((sortByLenDesc_perm names).map DetectedName.name).mem_iff.mp h2
  · intro names
    exact ⟨sortByLenDesc_pairwise names, sortByLenDesc_perm names⟩
  · intro text h
    rw [jsChars_toList] at h
    have hstep : anonymizeNames text [⟨jsChars⟩]
        = (replaceWordCI jsChars jsIni text, [⟨jsChars, jsIni⟩]) := by
      unfold anonymizeNames
      rw [if_neg (by simp)]
      show anonymizeStep (text, []) ⟨jsChars⟩ = _
      unfold anonymizeStep
      dsimp only
      rw [jsIni_initials, if_pos h]
      rfl
    rw [jsChars_toList, hstep]
    refine ⟨rfl, ?_, ?_⟩
    · exact replaceGo_contains jsChars jsIni text.length none text (le_refl _) h
    · exact js_replace_no_occurrence text

/-- Witness for **C9**: the text `Seen John Smith today` contains a
whole-word occurrence of `John Smith`; anonymization yields exactly one
replacement entry `{John Smith ↦ JS}`, the output contains `JS`, and no
whole-word occurrence of the name remains. -/
theorem anonymizeNames_contract_witness :
    hasWordCI "John Smith".toList none "Seen John Smith today".toList = true
    ∧ (anonymizeNames "Seen John Smith today".toList [⟨"John Smith".toList⟩]).2
        = [⟨"John Smith".toList, "JS".toList⟩]
    ∧ containsSub "JS".toList
        (anonymizeNames "Seen John Smith today".toList [⟨"John Smith".toList⟩]).1 = true
    ∧ hasWordCI "John Smith".toList none
        (anonymizeNames "Seen John Smith today".toList [⟨"John Smith".toList⟩]).1 = false :=
  ⟨by decide,
   (anonymizeNames_contract.2.2 "Seen John Smith today".toList (by decide)).1,
   (anonymizeNames_contract.2.2 "Seen John Smith today".toList (by decide)).2.1,
   (anonymizeNames_contract.2.2 "Seen John Smith today".toList (by decide)).2.2⟩

end Audit
